import Mathlib

/-!
Verification development for the g3 conversational agent core.

Rust strings are embedded as `List Char` (the code's UTF-8 handling is
char-oriented at every point the claims touch). JSON values are embedded
as a mutual inductive family so that structural recursion is available.
-/

set_option maxRecDepth 100000

namespace G3

/-- Character-list strings, the embedding of Rust `String`/`&str`. -/
abbrev Str := List Char

/-- The ASCII left curly brace (written by code point to keep literals plain). -/
def lbrace : Char := '\x7b'

/-- The ASCII right curly brace. -/
def rbrace : Char := '\x7d'

mutual

/-- Embedding of `serde_json::Value`. -/
inductive Json where
  | null : Json
  | bool (b : Bool) : Json
  | num (n : Int) : Json
  | str (s : Str) : Json
  | arr (xs : JsonArr) : Json
  | obj (fs : JsonObj) : Json

/-- A list of JSON values (hand-rolled so recursion stays structural). -/
inductive JsonArr where
  | nil : JsonArr
  | cons (hd : Json) (tl : JsonArr) : JsonArr

/-- An ordered list of JSON object fields. -/
inductive JsonObj where
  | nil : JsonObj
  | cons (key : Str) (val : Json) (tl : JsonObj) : JsonObj

end

deriving instance DecidableEq for Json

/-- Lexicographic comparison of keys, used to normalise object field order. -/
def strLe : Str → Str → Bool
  | [], _ => true
  | _ :: _, [] => false
  | a :: as, b :: bs =>
    if a = b then strLe as bs else decide (a < b)

/-- Insert a field into a key-sorted field list. -/
def insertField (k : Str) (v : Json) : JsonObj → JsonObj
  | .nil => .cons k v .nil
  | .cons k' v' tl =>
    if strLe k k' then .cons k v (.cons k' v' tl)
    else .cons k' v' (insertField k v tl)

/-- Insertion sort of object fields by key. -/
def sortFields : JsonObj → JsonObj
  | .nil => .nil
  | .cons k v tl => insertField k v (sortFields tl)

mutual

/-- Normalise a JSON value by sorting every object's fields by key. -/
def normJson : Json → Json
  | .null => .null
  | .bool b => .bool b
  | .num n => .num n
  | .str s => .str s
  | .arr xs => .arr (normArr xs)
  | .obj fs => .obj (sortFields (normObj fs))

/-- Normalise every element of a JSON array. -/
def normArr : JsonArr → JsonArr
  | .nil => .nil
  | .cons x tl => .cons (normJson x) (normArr tl)

/-- Normalise the value of every field (field order handled by `sortFields`). -/
def normObj : JsonObj → JsonObj
  | .nil => .nil
  | .cons k v tl => .cons k (normJson v) (normObj tl)

end

/-- Modelled from the spec: JSON structural equality, key order insensitive
(section 4.8; the Rust code compares `serde_json::Value`s, whose source is not
in this repository snapshot). -/
def jsonStructEq (a b : Json) : Bool :=
  decide (normJson a = normJson b)

/-- Embedding of `g3_core::ToolCall` (`lib.rs`): a tool name and JSON args. -/
structure ToolCall where
  tool : Str
  args : Json
deriving DecidableEq

/-- Modelled from the spec: two tool calls are duplicates iff the tool names
are equal and the args are JSON-structurally equal (section 4.8; the source of
`streaming::are_tool_calls_duplicate` is not in this repository snapshot). -/
def areToolCallsDuplicate (a b : ToolCall) : Bool :=
  decide (a.tool = b.tool) && jsonStructEq a.args b.args

/-- Embedding of `g3_providers::MessageRole`. -/
inductive MessageRole where
  | system : MessageRole
  | user : MessageRole
  | assistant : MessageRole
deriving DecidableEq

/-- Embedding of `g3_providers::MessageKind`. -/
inductive MessageKind where
  | regular : MessageKind
  | dehydratedStub : MessageKind
  | summary : MessageKind
deriving DecidableEq

/-- Embedding of `g3_providers::Message` (the fields the claims touch). -/
structure Message where
  role : MessageRole
  content : Str
  kind : MessageKind
deriving DecidableEq

/-- The `Message::new` constructor: a regular-kind message. -/
def Message.new (role : MessageRole) (content : Str) : Message :=
  ⟨role, content, .regular⟩

/-- The `Message::with_kind` constructor. -/
def Message.withKind (role : MessageRole) (content : Str) (kind : MessageKind) :
    Message :=
  ⟨role, content, kind⟩

/-- The `Message::is_dehydrated_stub` query. -/
def Message.isDehydratedStub (m : Message) : Bool :=
  m.kind = .dehydratedStub

/-- Modelled from the spec: the token estimator of the context window
(section 4.3, about one token per four characters plus a per-message
overhead; `context_window.rs` is not in this repository snapshot). -/
def estimateMessageTokens (m : Message) : Nat :=
  m.content.length / 4 + 4

/-- Embedding of `g3_core::ContextWindow` (the fields the claims touch). -/
structure ContextWindow where
  conversationHistory : List Message
  totalTokens : Nat
  usedTokens : Nat
deriving DecidableEq

/-- The `recalculate_tokens` recomputation: `used_tokens` becomes the summed
estimate over the conversation history. -/
def recalculateTokens (history : List Message) : Nat :=
  (history.map estimateMessageTokens).sum

/-- Rust `str::trim` on char lists: drop whitespace at both ends. -/
def trimStr (s : Str) : Str :=
  ((s.dropWhile Char.isWhitespace).reverse.dropWhile Char.isWhitespace).reverse

/-- Rust `str::rfind(pat)`: the greatest index at which `pat` occurs in `s`. -/
def rfindSub (s pat : Str) : Option Nat :=
  (List.range (s.length + 1)).reverse.find? fun i => pat.isPrefixOf (s.drop i)

/-- The scan pattern for a tool call without inner space, as a char list. -/
def toolPat : Str := [lbrace, '"', 't', 'o', 'o', 'l', '"']

/-- The scan pattern for a tool call with an inner space. -/
def toolPatSpaced : Str := [lbrace, ' ', '"', 't', 'o', 'o', 'l', '"']

/-- Modelled from the spec: the balanced-JSON scan of
`StreamingToolParser::find_complete_json_object_end` (section 4.2 step 4:
brace counting that respects string literals and escapes;
`streaming_parser.rs` is not in this repository snapshot). Returns the index
of the closing brace that balances the scan. -/
def findEndGo : Str → Nat → Nat → Bool → Bool → Option Nat
  | [], _, _, _, _ => none
  | c :: rest, idx, depth, inStr, esc =>
    if inStr then
      if esc then findEndGo rest (idx + 1) depth true false
      else if c = '\\' then findEndGo rest (idx + 1) depth true true
      else if c = '"' then findEndGo rest (idx + 1) depth false false
      else findEndGo rest (idx + 1) depth true false
    else
      if c = '"' then findEndGo rest (idx + 1) depth true false
      else if c = lbrace then findEndGo rest (idx + 1) (depth + 1) false false
      else if c = rbrace then
        if depth = 1 then some idx
        else findEndGo rest (idx + 1) (depth - 1) false false
      else findEndGo rest (idx + 1) depth false false

/-- Entry point of the balanced-JSON scan, starting outside any string. -/
def findCompleteJsonObjectEnd (s : Str) : Option Nat :=
  findEndGo s 0 0 false false

/-- Resolve a JSON string escape to the character it denotes. -/
def unescapeChar : Char → Char
  | 'n' => '\n'
  | 't' => '\t'
  | 'r' => '\r'
  | c => c

/-- Parse the body of a JSON string literal after its opening quote. -/
def parseStringBody : Str → Option (Str × Str)
  | [] => none
  | '"' :: rest => some ([], rest)
  | '\\' :: c :: rest =>
    (parseStringBody rest).map fun p => (unescapeChar c :: p.1, p.2)
  | ['\\'] => none
  | c :: rest => (parseStringBody rest).map fun p => (c :: p.1, p.2)

/-- Accumulate a run of decimal digits into a natural number. -/
def parseDigits (s : Str) : Option (Nat × Str) :=
  let digits := s.takeWhile Char.isDigit
  if digits = [] then none
  else some (digits.foldl (fun n c => n * 10 + (c.toNat - 48)) 0, s.drop digits.length)

/-- Parse an optionally-signed integer literal. -/
def parseIntLit : Str → Option (Int × Str)
  | '-' :: rest => (parseDigits rest).map fun p => (-(p.1 : Int), p.2)
  | s => (parseDigits s).map fun p => ((p.1 : Int), p.2)

/-- Drop leading JSON whitespace. -/
def skipWs (s : Str) : Str := s.dropWhile Char.isWhitespace

mutual

/-- Modelled from the spec: a JSON value parser standing in for
`serde_json` (an external crate), used where the code deserialises a
`{"tool", "args"}` object. Fuelled recursive descent. -/
def parseJson : Nat → Str → Option (Json × Str)
  | 0, _ => none
  | fuel + 1, s =>
    match skipWs s with
    | 'n' :: 'u' :: 'l' :: 'l' :: rest => some (.null, rest)
    | 't' :: 'r' :: 'u' :: 'e' :: rest => some (.bool true, rest)
    | 'f' :: 'a' :: 'l' :: 's' :: 'e' :: rest => some (.bool false, rest)
    | '"' :: rest => (parseStringBody rest).map fun p => (.str p.1, p.2)
    | '[' :: rest => (parseArrTail fuel rest).map fun p => (.arr p.1, p.2)
    | '\x7b' :: rest => (parseObjTail fuel rest).map fun p => (.obj p.1, p.2)
    | rest => (parseIntLit rest).map fun p => (.num p.1, p.2)

/-- Parse array items after an opening bracket. -/
def parseArrTail : Nat → Str → Option (JsonArr × Str)
  | 0, _ => none
  | fuel + 1, s =>
    match skipWs s with
    | ']' :: rest => some (.nil, rest)
    | s' =>
      match parseJson fuel s' with
      | none => none
      | some (v, r) =>
        match skipWs r with
        | ',' :: r2 => (parseArrTail fuel r2).map fun p => (.cons v p.1, p.2)
        | ']' :: r2 => some (.cons v .nil, r2)
        | _ => none

/-- Parse object fields after an opening brace. -/
def parseObjTail : Nat → Str → Option (JsonObj × Str)
  | 0, _ => none
  | fuel + 1, s =>
    match skipWs s with
    | '\x7d' :: rest => some (.nil, rest)
    | '"' :: rest =>
      match parseStringBody rest with
      | none => none
      | some (k, r1) =>
        match skipWs r1 with
        | ':' :: r2 =>
          match parseJson fuel r2 with
          | none => none
          | some (v, r3) =>
            match skipWs r3 with
            | ',' :: r4 => (parseObjTail fuel r4).map fun p => (.cons k v p.1, p.2)
            | '\x7d' :: r4 => some (.cons k v .nil, r4)
            | _ => none
        | _ => none
    | _ => none

end

/-- Look up the first field with the given key in a JSON object. -/
def objLookup : JsonObj → Str → Option Json
  | .nil, _ => none
  | .cons k v tl, key => if k = key then some v else objLookup tl key

/-- Modelled from the spec: `serde_json::from_str::<ToolCall>` — parse a JSON
object and read its `tool` (string) and `args` fields. -/
def parseToolCallStr (s : Str) : Option ToolCall :=
  match parseJson (s.length + 2) s with
  | some (.obj fs, rest) =>
    if trimStr rest = [] then
      match objLookup fs ['t', 'o', 'o', 'l'], objLookup fs ['a', 'r', 'g', 's'] with
      | some (.str t), some v => some ⟨t, v⟩
      | _, _ => none
    else none
  | _ => none

/-- The duplicate tag produced for a repeat of the previous message's call. -/
def dupInMsgTag : Str := ['D', 'U', 'P', ' ', 'I', 'N', ' ', 'M', 'S', 'G']

/-- The duplicate tag produced for a repeat inside the same chunk. -/
def dupInChunkTag : Str :=
  ['D', 'U', 'P', ' ', 'I', 'N', ' ', 'C', 'H', 'U', 'N', 'K']

/-- The most recent assistant message of the conversation history. -/
def findLastAssistant (history : List Message) : Option Message :=
  history.reverse.find? fun m => m.role = MessageRole.assistant

/-- Embedding of `Agent::check_duplicate_in_previous_message`
(`lib.rs` lines 1017-1054): locate the last tool-call pattern in the most
recent assistant message, require nothing but whitespace after its balanced
JSON object, parse it, and compare against the incoming call. -/
def checkDuplicateInPreviousMessage (history : List Message) (tc : ToolCall) :
    Option Str :=
  match findLastAssistant history with
  | none => none
  | some msg =>
    let content := msg.content
    match (rfindSub content toolPat).orElse (fun _ => rfindSub content toolPatSpaced) with
    | none => none
    | some lastToolStart =>
      match findCompleteJsonObjectEnd (content.drop lastToolStart) with
      | none => none
      | some endOff =>
        let endIdx := lastToolStart + endOff + 1
        let toolJson := (content.drop lastToolStart).take (endOff + 1)
        let textAfter := trimStr (content.drop endIdx)
        if textAfter ≠ [] then none
        else
          match parseToolCallStr toolJson with
          | some prev =>
            if areToolCallsDuplicate prev tc then some dupInMsgTag else none
          | none => none

/-- The de-duplication pass of `stream_completion_with_tools`
(`agent_streaming.rs` lines 292-313), parametrised by the
previous-message check applied to the first call of the chunk. The first
argument threads `last_tool_in_chunk`. -/
def dedupGo (checkPrev : ToolCall → Option Str) :
    Option ToolCall → List ToolCall → List (ToolCall × Option Str)
  | _, [] => []
  | none, tc :: rest => (tc, checkPrev tc) :: dedupGo checkPrev (some tc) rest
  | some last, tc :: rest =>
    (tc, if areToolCallsDuplicate last tc then some dupInChunkTag else none)
      :: dedupGo checkPrev (some tc) rest

/-- Entry point of the de-duplication pass: `last_tool_in_chunk` starts out
empty, so the first call is checked against the previous message. -/
def dedupToolCalls (toolsToProcess : List ToolCall)
    (checkPrev : ToolCall → Option Str) : List (ToolCall × Option Str) :=
  dedupGo checkPrev none toolsToProcess

/-- The observable effects of the tool-processing loop over one chunk. -/
structure ChunkExecState where
  dispatched : List ToolCall
  toolExecuted : Bool
  anyToolExecuted : Bool
  autoSummaryAttempts : Nat
deriving DecidableEq

/-- Embedding of the per-chunk tool-processing loop of
`stream_completion_with_tools` (`agent_streaming.rs` lines 316-601, with
UI and provider side effects stripped): a flagged duplicate is skipped
(`continue`) and leaves every flag alone; a non-duplicate call is dispatched,
sets `tool_executed` and `any_tool_executed`, and resets
`auto_summary_attempts` to zero. -/
def processChunkCalls : List (ToolCall × Option Str) → ChunkExecState →
    ChunkExecState
  | [], st => st
  | (_, some _) :: rest, st => processChunkCalls rest st
  | (tc, none) :: rest, st =>
    processChunkCalls rest
      { dispatched := st.dispatched ++ [tc], toolExecuted := true,
        anyToolExecuted := true, autoSummaryAttempts := 0 }

/-- Embedding of the auto-continue condition of
`stream_completion_with_tools` (`agent_streaming.rs` lines 879-882). -/
def shouldAutoContinueFlag (isAutonomous anyToolExecuted hasIncompleteToolCall
    hasUnexecutedToolCall wasTruncatedByMaxTokens : Bool) : Bool :=
  isAutonomous && (anyToolExecuted || hasIncompleteToolCall
    || hasUnexecutedToolCall || wasTruncatedByMaxTokens)

/-- The reasons the turn loop may auto-continue. -/
inductive AutoContinueReason where
  | toolsExecuted : AutoContinueReason
  | incompleteToolCall : AutoContinueReason
  | unexecutedToolCall : AutoContinueReason
  | maxTokensTruncation : AutoContinueReason
deriving DecidableEq

/-- Modelled from the spec: `streaming::should_auto_continue`
(design notes and the characterization tests fix the priority
ToolsExecuted over IncompleteToolCall over UnexecutedToolCall over
MaxTokensTruncation; `streaming.rs` is not in this repository snapshot). -/
def shouldAutoContinue (isAutonomous anyToolExecuted hasIncompleteToolCall
    hasUnexecutedToolCall wasTruncatedByMaxTokens : Bool) :
    Option AutoContinueReason :=
  if !isAutonomous then none
  else if anyToolExecuted then some .toolsExecuted
  else if hasIncompleteToolCall then some .incompleteToolCall
  else if hasUnexecutedToolCall then some .unexecutedToolCall
  else if wasTruncatedByMaxTokens then some .maxTokensTruncation
  else none

/-- The non-ASCII homoglyph substituted for an inline tool-call brace
(a fullwidth left brace; the exact code point is private to the missing
module, only non-ASCII-ness is observable). -/
def lbraceHomoglyph : Char := '｛'

/-- One step of the line-scan state: a newline starts a fresh line, any
other non-whitespace character marks the line as having content. -/
def seenState (seen : Bool) (c : Char) : Bool :=
  if c = '\n' then false else seen || !c.isWhitespace

/-- Modelled from the spec: the scanner core of
`sanitize_inline_tool_patterns` (section 4.2: a tool-call pattern preceded
by non-whitespace on its own line has its opening brace rewritten to a
homoglyph; a pattern that is the first non-whitespace content of its line is
left alone; `streaming_parser.rs` is not in this repository snapshot). -/
def sanGo (seen : Bool) : Str → Str
  | [] => []
  | c :: rest =>
    if seen && toolPat.isPrefixOf (c :: rest) then
      lbraceHomoglyph :: sanGo true rest
    else
      c :: sanGo (seenState seen c) rest

/-- Entry point of inline-pattern sanitization: the buffer starts at the
beginning of a line. -/
def sanitizeInlineToolPatterns (s : Str) : Str :=
  sanGo false s

/-- The line-scan state after consuming a list of characters. -/
def seenAfter (seen : Bool) : Str → Bool
  | [] => seen
  | c :: rest => seenAfter (seenState seen c) rest

/-- Position `i` of `s` starts an inline (prose-embedded) tool pattern:
the pattern occurs there and some earlier character on the same line is not
whitespace. -/
def inlineAt (s : Str) (i : Nat) : Bool :=
  toolPat.isPrefixOf (s.drop i) && seenAfter false (s.take i)

/-- The recoverable error kinds of `error_handling::RecoverableError`. -/
inductive RecoverableError where
  | rateLimit : RecoverableError
  | timeout : RecoverableError
  | serverError : RecoverableError
  | networkError : RecoverableError
  | modelBusy : RecoverableError
  | tokenLimit : RecoverableError
  | contextLengthExceeded : RecoverableError
deriving DecidableEq

/-- The classification result of `error_handling::ErrorType`. -/
inductive ErrorType where
  | recoverable (kind : RecoverableError) : ErrorType
  | nonRecoverable : ErrorType
deriving DecidableEq

/-- Substring containment, the embedding of Rust `str::contains`. -/
def containsSub (s pat : Str) : Bool :=
  (List.range (s.length + 1)).any fun i => pat.isPrefixOf (s.drop i)

/-- Character-wise lowercasing, the embedding of `str::to_lowercase` on the
ASCII keywords the classifier matches. -/
def lowerStr (s : Str) : Str :=
  s.map Char.toLower

/-- Modelled from the spec: `error_handling::classify_error` (section 4.1
fixes the keyword list and its precedence over the lowercased message;
`error_handling.rs` is not in this repository snapshot). Auth markers and
unmatched messages both fall through to NonRecoverable. -/
def classifyError (msg : Str) : ErrorType :=
  let m := lowerStr msg
  if containsSub m ("rate limit").data || containsSub m ("429").data then
    .recoverable .rateLimit
  else if containsSub m ("connection").data then
    .recoverable .networkError
  else if containsSub m ("timeout").data || containsSub m ("timed out").data then
    .recoverable .timeout
  else if containsSub m ("500").data || containsSub m ("502").data
      || containsSub m ("503").data || containsSub m ("server error").data
      || containsSub m ("bad gateway").data
      || containsSub m ("service unavailable").data then
    .recoverable .serverError
  else if containsSub m ("busy").data || containsSub m ("overloaded").data then
    .recoverable .modelBusy
  else if (containsSub m ("400").data || containsSub m ("bad request").data)
      && (containsSub m ("context length").data
        || containsSub m ("context_length_exceeded").data
        || containsSub m ("too many tokens").data) then
    .recoverable .contextLengthExceeded
  else if containsSub m ("token").data
      && (containsSub m ("limit").data || containsSub m ("exceeded").data) then
    .recoverable .tokenLimit
  else .nonRecoverable

/-- An error classifies NonRecoverable. -/
def isNonRecoverable (e : Str) : Bool :=
  decide (classifyError e = ErrorType.nonRecoverable)

/-- The error reported when the retry budget is exhausted without any
attempt having been made (zero-budget corner). -/
def maxRetriesMsg : Str := ("max retries reached").data

/-- Modelled from the spec: the attempt loop of `retry::retry_operation`
(section 4.4 and the retry characterization tests: try the operation up to
`max_retries` times, return immediately on success or on a NonRecoverable
classification, otherwise retry; `retry.rs` is not in this repository
snapshot). `f` maps the 1-based attempt index to that attempt's outcome;
the second component counts invocations made, threading from `start`. -/
def retryRun (f : Nat → Except Str α) : Nat → Nat → Except Str α × Nat
  | start, 0 => (.error maxRetriesMsg, start)
  | start, n + 1 =>
    match f (start + 1) with
    | .ok a => (.ok a, start + 1)
    | .error e =>
      if isNonRecoverable e then (.error e, start + 1)
      else if n = 0 then (.error e, start + 1)
      else retryRun f (start + 1) n

/-- Entry point of the retry driver: no invocations made yet. -/
def retryOperation (f : Nat → Except Str α) (maxRetries : Nat) :
    Except Str α × Nat :=
  retryRun f 0 maxRetries

/-- The minimum summary output-token budget (`SUMMARY_MIN_TOKENS`). -/
def summaryMinTokens : Nat := 1024

/-- Modelled from the spec: the per-provider-family summary output-token cap
(section 4.6: Anthropic 10000, Databricks 10000, embedded 3000, unknown
5000; `compaction.rs` is not in this repository snapshot). -/
def providerSummaryCap (provider : Str) : Nat :=
  if provider = ("anthropic").data then 10000
  else if provider = ("databricks").data then 10000
  else if provider = ("embedded").data then 3000
  else 5000

/-- Modelled from the spec: `compaction::calculate_capped_summary_tokens` —
cap the base budget per provider family and floor it at
`SUMMARY_MIN_TOKENS`. -/
def calculateCappedSummaryTokens (provider : Str) (baseTokens : Nat) : Nat :=
  max summaryMinTokens (min baseTokens (providerSummaryCap provider))

/-- The character budget of a fragment topic string. -/
def topicMaxChars : Nat := 50

/-- The three-character truncation marker appended to shortened topics. -/
def ellipsisMarker : Str := ['.', '.', '.']

/-- Modelled from the spec: character-boundary truncation used for topic
strings (design notes: a single `truncate_to_chars(s, n, suffix)` utility;
never slices by byte index). -/
def truncateToChars (s : Str) (n : Nat) : Str :=
  if s.length ≤ n then s else s.take n ++ ellipsisMarker

/-- A topic is the head of a user message, truncated to the topic budget on
character boundaries. -/
def topicOfUserMessage (content : Str) : Str :=
  truncateToChars content topicMaxChars

/-- The placeholder fragment identifier of the embedding (the real one is a
freshly generated unique id; no claim depends on its value). -/
def defaultFragmentId : Str := ("fragment-001").data

/-- Embedding of `acd::Fragment` (`lib.rs` consumes it; the record layout is
fixed by the spec's data model, section 3). -/
structure Fragment where
  fragmentId : Str
  precedingId : Option Str
  messages : List Message
  topics : List Str
deriving DecidableEq

/-- Modelled from the spec: `Fragment::new` stores the given messages
verbatim and derives at most three topics from user-message heads
(sections 3 and 4.5; `acd.rs` is not in this repository snapshot). -/
def Fragment.new (messages : List Message) (precedingId : Option Str) :
    Fragment :=
  { fragmentId := defaultFragmentId
    precedingId := precedingId
    messages := messages
    topics := ((messages.filter fun m => m.role = MessageRole.user).take 3).map
      fun m => topicOfUserMessage m.content }

/-- Modelled from the spec: `Fragment::generate_stub` renders the fragment
id, the topics and a rehydrate instruction into the stub body
(section 4.5). -/
def Fragment.generateStub (f : Fragment) : Str :=
  ("[DEHYDRATED CONTEXT] fragment_id: ").data ++ f.fragmentId
    ++ (" topics: ").data
    ++ (f.topics.foldl (fun acc t => acc ++ t ++ ("; ").data) [])
    ++ ("call the rehydrate tool with this fragment_id to re-inject "
      ++ "the hidden messages.").data

/-- The agent fields that `dehydrate_context` reads and writes. -/
structure AgentState where
  contextWindow : ContextWindow
  acdEnabled : Bool
  sessionId : Option Str
deriving DecidableEq

/-- Rust `Iterator::rposition`: the front index of the last element
satisfying the test. -/
def rposition (p : Message → Bool) (l : List Message) : Option Nat :=
  match l.reverse.findIdx? p with
  | some i => some (l.length - 1 - i)
  | none => none

/-- Embedding of `Agent::dehydrate_context` (`lib.rs` lines 1371-1476).
The fragment store is replaced by explicit parameters: `precedingId` stands
for `acd::get_latest_fragment_id` and `saveOk` for the outcome of
`Fragment::save`; the function returns the updated agent state and the
fragment it saved, if any. -/
def dehydrateContext (st : AgentState) (precedingId : Option Str)
    (saveOk : Bool) : AgentState × Option Fragment :=
  if st.acdEnabled = false then (st, none)
  else
    match st.sessionId with
    | none => (st, none)
    | some _ =>
      let hist := st.contextWindow.conversationHistory
      let lastStubIndex := rposition (fun m => m.isDehydratedStub) hist
      let dehydrateStart :=
        match lastStubIndex with
        | some idx => idx + 2
        | none => 0
      let messagesToDehydrate := (hist.enum.filter fun p =>
        decide (dehydrateStart ≤ p.1)
          && decide (p.2.role ≠ MessageRole.system)).map Prod.snd
      if messagesToDehydrate = [] then (st, none)
      else
        let turnSummary := (messagesToDehydrate.reverse.find? fun m =>
          m.role = MessageRole.assistant).map Message.content
        let summaryContent := turnSummary.getD []
        let fragment := Fragment.new messagesToDehydrate precedingId
        let stub := fragment.generateStub
        if saveOk = false then (st, none)
        else
          let messagesToKeep := (hist.enum.filter fun p =>
            decide (p.2.role = MessageRole.system)
              || decide (p.1 < dehydrateStart)).map Prod.snd
          let stubMsg := Message.withKind MessageRole.user stub
            MessageKind.dehydratedStub
          let base := messagesToKeep ++ [stubMsg]
          let newHist :=
            if trimStr summaryContent ≠ [] then
              base ++ [Message.withKind MessageRole.assistant summaryContent
                MessageKind.summary]
            else base
          ({ st with contextWindow :=
              { st.contextWindow with
                conversationHistory := newHist
                usedTokens := recalculateTokens newHist } },
            some fragment)

/-- The two turn-loop events that touch the auto-continue counter. -/
inductive TurnEvent where
  | execTool : TurnEvent
  | autoContinue : TurnEvent
deriving DecidableEq

/-- The auto-continue budget `MAX_AUTO_SUMMARY_ATTEMPTS`
(`agent_streaming.rs` line 136). -/
def maxAutoSummaryAttemptsBound : Nat := 5

/-- The turn-loop counters the auto-continue budget acts on. -/
structure TurnCounters where
  autoSummaryAttempts : Nat
  promptsIssued : Nat
deriving DecidableEq

/-- Embedding of the counter updates of `stream_completion_with_tools`:
a successful non-duplicate tool execution resets `auto_summary_attempts`
(`agent_streaming.rs` line 576); an auto-continue opportunity issues a
prompt and increments the counter only while it is below the budget
(lines 883-885), and otherwise gives up without issuing one. -/
def turnStep (s : TurnCounters) : TurnEvent → TurnCounters
  | .execTool => { s with autoSummaryAttempts := 0 }
  | .autoContinue =>
    if s.autoSummaryAttempts < maxAutoSummaryAttemptsBound then
      { autoSummaryAttempts := s.autoSummaryAttempts + 1
        promptsIssued := s.promptsIssued + 1 }
    else s

/-- Run the turn-loop counters over a sequence of events from a fresh turn. -/
def runTurnEvents (evs : List TurnEvent) : TurnCounters :=
  evs.foldl turnStep ⟨0, 0⟩

/-- The length of the trailing run of auto-continue events. -/
def trailingAutoContinues (evs : List TurnEvent) : Nat :=
  (evs.reverse.takeWhile fun e => e = TurnEvent.autoContinue).length

/-- C2: the auto-continue decision returns a continue reason exactly when the
agent is autonomous and a tool was executed earlier in the turn, the parser
holds an incomplete tool call, the parser holds a complete but unexecuted
tool call, or the stream was truncated by max_tokens; the turn loop's inline
condition computes the same disjunction, and in non-autonomous mode it is
always false, so the turn loop never auto-continues interactively. -/
theorem c2_auto_continue_iff :
    ∀ a t i u m : Bool,
      ((shouldAutoContinue a t i u m).isSome = (a && (t || i || u || m)))
      ∧ (shouldAutoContinueFlag a t i u m = (a && (t || i || u || m)))
      ∧ (shouldAutoContinueFlag false t i u m = false) := by
  decide

/-- C7: the summary token budget never exceeds the per-provider-family cap
(anthropic 10000, databricks 10000, embedded 3000, any other provider
5000), never drops below `SUMMARY_MIN_TOKENS`, preserves a base that is at
most the cap and at least the floor, and returns exactly the floor for a
base below it. -/
theorem c7_summary_token_caps :
    ∀ (provider : Str) (baseTokens : Nat),
      calculateCappedSummaryTokens provider baseTokens
          ≤ providerSummaryCap provider
      ∧ summaryMinTokens ≤ calculateCappedSummaryTokens provider baseTokens
      ∧ (summaryMinTokens ≤ baseTokens →
          baseTokens ≤ providerSummaryCap provider →
          calculateCappedSummaryTokens provider baseTokens = baseTokens)
      ∧ (baseTokens < summaryMinTokens →
          calculateCappedSummaryTokens provider baseTokens = summaryMinTokens)
      ∧ providerSummaryCap (("anthropic").data) = 10000
      ∧ providerSummaryCap (("databricks").data) = 10000
      ∧ providerSummaryCap (("embedded").data) = 3000
      ∧ (provider ≠ ("anthropic").data → provider ≠ ("databricks").data →
          provider ≠ ("embedded").data → providerSummaryCap provider = 5000) := by
  intro provider baseTokens
  have hcap : summaryMinTokens ≤ providerSummaryCap provider := by
    unfold providerSummaryCap summaryMinTokens
    split_ifs <;> norm_num
  unfold calculateCappedSummaryTokens at *
  refine ⟨by omega, by omega, fun h1 h2 => by omega, fun h => by omega,
    by decide, by decide, by decide, fun h1 h2 h3 => ?_⟩
  unfold providerSummaryCap
  rw [if_neg h1, if_neg h2, if_neg h3]

/-- C7 witness: concrete instantiations of the capped-budget theorem. -/
theorem c7_summary_token_caps_witness :
    calculateCappedSummaryTokens (("anthropic").data) 2000 = 2000
    ∧ calculateCappedSummaryTokens (("anthropic").data) 100 = summaryMinTokens
    ∧ providerSummaryCap (("zz").data) = 5000 := by
  refine ⟨?_, ?_, ?_⟩
  · exact (c7_summary_token_caps (("anthropic").data) 2000).2.2.1
      (by decide) (by decide)
  · exact (c7_summary_token_caps (("anthropic").data) 100).2.2.2.1 (by decide)
  · exact (c7_summary_token_caps (("zz").data) 0).2.2.2.2.2.2.2
      (by decide) (by decide) (by decide)

/-- C9: if saving the fragment fails, `dehydrate_context` leaves the agent
state — in particular the context window with its conversation history and
token counters — entirely unchanged. -/
theorem c9_dehydrate_atomic_on_save_failure :
    ∀ (st : AgentState) (precedingId : Option Str),
      (dehydrateContext st precedingId false).1 = st := by
  intro st precedingId
  unfold dehydrateContext
  split
  · rfl
  · split
    · rfl
    · split
      · simp only [ite_self]
      · next h => exact absurd rfl h

/-- A system message of a one-turn session used to exercise dehydration. -/
def dhSys : Message := Message.new MessageRole.system (("sys prompt").data)

/-- The user message of the turn. -/
def dhUser : Message := Message.new MessageRole.user (("do the task").data)

/-- The final assistant response of the turn (the turn summary). -/
def dhAsst : Message :=
  Message.new MessageRole.assistant (("all done, summary of work").data)

/-- An agent state with dehydration enabled right after that turn. -/
def dhState : AgentState :=
  ⟨⟨[dhSys, dhUser, dhAsst], 100000, 50⟩, true, some (("sess-1").data)⟩

/-- C4: at a turn whose history is `[System, User, Assistant]` with no prior
dehydration marker and a successful save, the saved fragment bundles the
user message AND the final assistant summary of the turn, although the
function's own documentation (and the spec) say the final assistant summary
is excluded; the stub and Summary substitution and the token recalculation
do happen as described. -/
theorem c4_fragment_includes_final_summary :
    dhState.contextWindow.conversationHistory.getLast? = some dhAsst
    ∧ dhAsst.role = MessageRole.assistant
    ∧ (dehydrateContext dhState none true).2.map Fragment.messages
        = some [dhUser, dhAsst]
    ∧ ((dehydrateContext dhState none true).1.contextWindow.conversationHistory.map
          fun m => (m.role, m.kind))
        = [(MessageRole.system, MessageKind.regular),
           (MessageRole.user, MessageKind.dehydratedStub),
           (MessageRole.assistant, MessageKind.summary)]
    ∧ (dehydrateContext dhState none true).1.contextWindow.usedTokens
        = recalculateTokens
            (dehydrateContext dhState none true).1.contextWindow.conversationHistory := by
  refine ⟨rfl, rfl, by decide, by decide, by decide⟩

/-- Containment is preserved when the needle shrinks to one of its own
prefixes. -/
theorem containsSub_of_prefix {s p q : Str} (h : containsSub s p = true)
    (hq : q <+: p) : containsSub s q = true := by
  unfold containsSub at h ⊢
  rw [List.any_eq_true] at h ⊢
  obtain ⟨i, hi, hpre⟩ := h
  exact ⟨i, hi,
    List.isPrefixOf_iff_prefix.mpr (hq.trans (List.isPrefixOf_iff_prefix.mp hpre))⟩

/-- C5 counterexample: the message "rate limit connection timeout" contains
"connection timeout" yet classifies RateLimit, not NetworkError, so the
claim's universal "every message containing connection timeout classifies
NetworkError" fails as stated. -/
theorem c5_counterexample :
    containsSub (lowerStr (("rate limit connection timeout").data))
        (("connection timeout").data) = true
    ∧ classifyError (("rate limit connection timeout").data)
        = ErrorType.recoverable RecoverableError.rateLimit
    ∧ classifyError (("rate limit connection timeout").data)
        ≠ ErrorType.recoverable RecoverableError.networkError := by
  refine ⟨by decide, by decide, by decide⟩

/-- C5 (amended): the classifier follows the fixed keyword precedence with
RateLimit above NetworkError above Timeout; every message containing
"connection timeout" but no rate-limit marker ("rate limit" or "429")
classifies NetworkError and not Timeout, and every message containing both
"rate limit" and "timeout" classifies RateLimit. -/
theorem c5_classifier_priority :
    ∀ msg : Str,
      (containsSub (lowerStr msg) (("connection timeout").data) = true →
        containsSub (lowerStr msg) (("rate limit").data) = false →
        containsSub (lowerStr msg) (("429").data) = false →
        classifyError msg = ErrorType.recoverable RecoverableError.networkError)
      ∧ (containsSub (lowerStr msg) (("rate limit").data) = true →
          containsSub (lowerStr msg) (("timeout").data) = true →
          classifyError msg = ErrorType.recoverable RecoverableError.rateLimit) := by
  intro msg
  constructor
  · intro hct hrl h429
    have hconn : containsSub (lowerStr msg) (("connection").data) = true := by
      refine containsSub_of_prefix hct ?_
      exact List.isPrefixOf_iff_prefix.mp (by decide)
    simp [classifyError, hrl, h429, hconn]
  · intro hrl _
    simp [classifyError, hrl]

/-- C5 witness: the amended statement applied at concrete messages. -/
theorem c5_classifier_priority_witness :
    classifyError (("connection timeout after 30s").data)
        = ErrorType.recoverable RecoverableError.networkError
    ∧ classifyError (("Rate limit exceeded after timeout").data)
        = ErrorType.recoverable RecoverableError.rateLimit := by
  constructor
  · exact (c5_classifier_priority (("connection timeout after 30s").data)).1
      (by decide) (by decide) (by decide)
  · exact (c5_classifier_priority
      (("Rate limit exceeded after timeout").data)).2 (by decide) (by decide)

/-- The retry loop makes at most as many invocations as its budget allows. -/
theorem retryRun_count_le {α : Type} (f : Nat → Except Str α) :
    ∀ (n start : Nat), (retryRun f start n).2 ≤ start + n := by
  intro n
  induction n with
  | zero => intro start; simp [retryRun]
  | succ n ih =>
    intro start
    unfold retryRun
    cases h : f (start + 1) with
    | ok a => simp
    | error e =>
      simp only
      split
      · dsimp only
        omega
      · split
        · dsimp only
          omega
        · have := ih (start + 1)
          omega

/-- If every attempt before `k` fails recoverably and attempt `k` succeeds,
the loop returns the success after exactly `k` invocations. -/
theorem retryRun_ok {α : Type} (f : Nat → Except Str α) :
    ∀ (n start k : Nat) (a : α), start < k → k ≤ start + n →
      (∀ i, start < i → i < k → ∃ e, f i = .error e ∧ isNonRecoverable e = false) →
      f k = .ok a → retryRun f start n = (.ok a, k) := by
  intro n
  induction n with
  | zero => intro start k a h1 h2 _ _; omega
  | succ n ih =>
    intro start k a h1 h2 hfail hok
    unfold retryRun
    by_cases hk : k = start + 1
    · subst hk
      rw [hok]
    · obtain ⟨e, he, hrec⟩ := hfail (start + 1) (by omega) (by omega)
      rw [he]
      simp only [hrec]
      have hn : n ≠ 0 := by omega
      simp only [if_neg hn, Bool.false_eq_true, if_false]
      exact ih (start + 1) k a (by omega) (by omega)
        (fun i hi1 hi2 => hfail i (by omega) hi2) hok

/-- If every attempt in the budget fails recoverably, the loop makes exactly
as many invocations as the budget and returns an error. -/
theorem retryRun_all_recoverable {α : Type} (f : Nat → Except Str α) :
    ∀ (n start : Nat), 1 ≤ n →
      (∀ i, start < i → i ≤ start + n →
        ∃ e, f i = .error e ∧ isNonRecoverable e = false) →
      (retryRun f start n).2 = start + n
        ∧ ∃ e, (retryRun f start n).1 = .error e := by
  intro n
  induction n with
  | zero => intro start h; omega
  | succ n ih =>
    intro start _ hfail
    obtain ⟨e, he, hrec⟩ := hfail (start + 1) (by omega) (by omega)
    unfold retryRun
    rw [he]
    simp only [hrec, Bool.false_eq_true, if_false]
    by_cases hn : n = 0
    · subst hn
      simp
    · simp only [if_neg hn]
      have := ih (start + 1) (by omega)
        (fun i hi1 hi2 => hfail i (by omega) (by omega))
      refine ⟨by omega, this.2⟩

/-- C6: the retry driver invokes the wrapped operation at most `max_retries`
times; a success at attempt `k` (after recoverable failures) is returned
after exactly `k` invocations, in particular a first-attempt success makes
no further invocation; a NonRecoverable first failure is returned after
exactly one invocation; and if every attempt fails recoverably the
operation is invoked exactly `max_retries` times before the error is
returned. -/
theorem c6_retry_bounds :
    ∀ (α : Type) (f : Nat → Except Str α) (maxRetries : Nat),
      ((retryOperation f maxRetries).2 ≤ maxRetries)
      ∧ (∀ k a, 1 ≤ k → k ≤ maxRetries →
          (∀ i, 1 ≤ i → i < k →
            ∃ e, f i = .error e ∧ isNonRecoverable e = false) →
          f k = .ok a → retryOperation f maxRetries = (.ok a, k))
      ∧ (∀ e, 1 ≤ maxRetries → f 1 = .error e → isNonRecoverable e = true →
          retryOperation f maxRetries = (.error e, 1))
      ∧ (1 ≤ maxRetries →
          (∀ i, 1 ≤ i → i ≤ maxRetries →
            ∃ e, f i = .error e ∧ isNonRecoverable e = false) →
          (retryOperation f maxRetries).2 = maxRetries
            ∧ ∃ e, (retryOperation f maxRetries).1 = .error e) := by
  intro α f maxRetries
  refine ⟨?_, ?_, ?_, ?_⟩
  · have := retryRun_count_le f maxRetries 0
    simpa [retryOperation] using this
  · intro k a hk1 hk2 hfail hok
    have := retryRun_ok f maxRetries 0 k a (by omega) (by omega)
      (fun i hi1 hi2 => hfail i (by omega) hi2) hok
    simpa [retryOperation] using this
  · intro e hmax he hnon
    unfold retryOperation
    obtain ⟨m, rfl⟩ : ∃ m, maxRetries = m + 1 := ⟨maxRetries - 1, by omega⟩
    unfold retryRun
    rw [he]
    simp [hnon]
  · intro hmax hfail
    have := retryRun_all_recoverable f maxRetries 0 hmax
      (fun i hi1 hi2 => hfail i (by omega) (by omega))
    simpa [retryOperation] using this

/-- A operation that always fails with a recoverable rate-limit error. -/
def retryFailWitness : Nat → Except Str Nat :=
  fun _ => .error (("rate limit exceeded").data)

/-- An operation that fails recoverably once and then succeeds. -/
def retrySucceedWitness : Nat → Except Str Nat :=
  fun i => if i = 1 then .error (("Server error 500").data) else .ok 7

/-- C6 witness: the retry theorem applied at concrete operations and a
budget of three attempts. -/
theorem c6_retry_bounds_witness :
    retryOperation retrySucceedWitness 3 = (.ok 7, 2)
    ∧ retryOperation retryFailWitness 1
        ≠ (.error (("rate limit exceeded").data), 0)
    ∧ (retryOperation retryFailWitness 3).2 = 3
    ∧ retryOperation (fun _ => (Except.error (("Invalid API key").data) :
        Except Str Nat)) 3
        = (.error (("Invalid API key").data), 1) := by
  refine ⟨?_, ?_, ?_, ?_⟩
  · refine (c6_retry_bounds Nat retrySucceedWitness 3).2.1 2 7 (by decide)
      (by decide) ?_ rfl
    intro i h1 h2
    have hi : i = 1 := by omega
    subst hi
    exact ⟨_, rfl, by decide⟩
  · intro h
    have := (c6_retry_bounds Nat retryFailWitness 1).2.2.2 (by decide) ?_
    · rw [h] at this
      exact absurd this.1 (by decide)
    · intro i h1 h2
      exact ⟨_, rfl, by decide⟩
  · refine ((c6_retry_bounds Nat retryFailWitness 3).2.2.2 (by decide) ?_).1
    intro i h1 h2
    exact ⟨_, rfl, by decide⟩
  · exact (c6_retry_bounds Nat _ 3).2.2.1 (("Invalid API key").data)
      (by decide) rfl (by decide)

/-- C8: fragment topics are the heads of at most three user messages,
truncated on character boundaries: a content of at most fifty characters is
kept whole, a longer one becomes its first fifty characters followed by the
three-character ellipsis marker — so a 50-character message yields an
un-truncated topic, a 51-character one yields a truncated topic ending in
the marker, and multi-byte characters (CJK, emoji, accents) are counted as
single characters throughout. -/
theorem c8_topic_truncation :
    ∀ (messages : List Message) (precedingId : Option Str) (content : Str),
      ((Fragment.new messages precedingId).topics
        = ((messages.filter fun m => m.role = MessageRole.user).take 3).map
            fun m => topicOfUserMessage m.content)
      ∧ (content.length ≤ 50 → topicOfUserMessage content = content)
      ∧ (50 < content.length →
          topicOfUserMessage content = content.take 50 ++ ellipsisMarker
            ∧ ellipsisMarker <:+ topicOfUserMessage content
            ∧ (topicOfUserMessage content).length = 53)
      ∧ ellipsisMarker.length = 3 := by
  intro messages precedingId content
  refine ⟨rfl, ?_, ?_, rfl⟩
  · intro h
    simp [topicOfUserMessage, truncateToChars, topicMaxChars, h]
  · intro h
    have hne : ¬ content.length ≤ 50 := by omega
    refine ⟨by simp [topicOfUserMessage, truncateToChars, topicMaxChars, hne],
      ?_, ?_⟩
    · simp only [topicOfUserMessage, truncateToChars, topicMaxChars, if_neg hne]
      exact List.suffix_append _ _
    · simp only [topicOfUserMessage, truncateToChars, topicMaxChars, if_neg hne]
      simp [List.length_take, ellipsisMarker]
      omega

/-- C8 witness: the truncation theorem applied at the boundary lengths and
at multi-byte inputs. -/
theorem c8_topic_truncation_witness :
    topicOfUserMessage (List.replicate 50 'a') = List.replicate 50 'a'
    ∧ topicOfUserMessage (List.replicate 51 'a')
        = (List.replicate 51 'a').take 50 ++ ellipsisMarker
    ∧ ellipsisMarker <:+ topicOfUserMessage (List.replicate 60 '中')
    ∧ (topicOfUserMessage (List.replicate 60 '🔥')).length = 53
    ∧ (Fragment.new [Message.new MessageRole.user (List.replicate 60 'é'),
          Message.new MessageRole.assistant (("OK").data)] none).topics
        = [topicOfUserMessage (List.replicate 60 'é')] := by
  refine ⟨?_, ?_, ?_, ?_, ?_⟩
  · exact (c8_topic_truncation [] none (List.replicate 50 'a')).2.1 (by decide)
  · exact ((c8_topic_truncation [] none (List.replicate 51 'a')).2.2.1
      (by decide)).1
  · exact ((c8_topic_truncation [] none (List.replicate 60 '中')).2.2.1
      (by decide)).2.1
  · exact ((c8_topic_truncation [] none (List.replicate 60 '🔥')).2.2.1
      (by decide)).2.2
  · exact ((c8_topic_truncation
      [Message.new MessageRole.user (List.replicate 60 'é'),
        Message.new MessageRole.assistant (("OK").data)] none
      []).1).trans (by decide)

/-- Appending a tool execution empties the trailing auto-continue run. -/
theorem trailing_append_exec (l : List TurnEvent) :
    trailingAutoContinues (l ++ [TurnEvent.execTool]) = 0 := by
  simp [trailingAutoContinues, List.reverse_append, List.takeWhile_cons]

/-- Appending an auto-continue extends the trailing run by one. -/
theorem trailing_append_ac (l : List TurnEvent) :
    trailingAutoContinues (l ++ [TurnEvent.autoContinue])
      = trailingAutoContinues l + 1 := by
  simp [trailingAutoContinues, List.reverse_append, List.takeWhile_cons,
    Nat.add_comm]

/-- The auto-continue counter equals the capped length of the trailing run
of auto-continue events, zeroed by any intervening tool execution. -/
theorem foldl_turnStep_attempts :
    ∀ (evs : List TurnEvent) (s : TurnCounters),
      s.autoSummaryAttempts ≤ maxAutoSummaryAttemptsBound →
      (evs.foldl turnStep s).autoSummaryAttempts
        = min ((if (evs.any fun e => e = TurnEvent.execTool) = true then 0
                else s.autoSummaryAttempts) + trailingAutoContinues evs)
            maxAutoSummaryAttemptsBound := by
  intro evs
  induction evs using List.reverseRecOn with
  | nil =>
    intro s hs
    simp only [List.foldl_nil, List.any_nil, trailingAutoContinues,
      List.reverse_nil, List.takeWhile_nil, List.length_nil,
      Bool.false_eq_true, if_false]
    omega
  | append_singleton l e ih =>
    intro s hs
    rw [List.foldl_append]
    cases e with
    | execTool =>
      rw [trailing_append_exec]
      have hany : ((l ++ [TurnEvent.execTool]).any
          fun e => e = TurnEvent.execTool) = true := by
        simp [List.any_append]
      rw [hany]
      simp [turnStep, maxAutoSummaryAttemptsBound]
    | autoContinue =>
      have hA := ih s hs
      rw [trailing_append_ac]
      have hany : ((l ++ [TurnEvent.autoContinue]).any
            fun e => e = TurnEvent.execTool)
          = (l.any fun e => e = TurnEvent.execTool) := by
        simp [List.any_append]
      rw [hany]
      simp only [List.foldl_cons, List.foldl_nil, turnStep]
      split
      · next hlt =>
        simp only
        omega
      · next hge =>
        omega

/-- Once the auto-continue counter is zero, processing further calls of the
chunk keeps it at zero. -/
theorem processChunkCalls_attempts_stay_zero :
    ∀ (l : List (ToolCall × Option Str)) (st : ChunkExecState),
      st.autoSummaryAttempts = 0 →
      (processChunkCalls l st).autoSummaryAttempts = 0 := by
  intro l
  induction l with
  | nil => intro st h; exact h
  | cons p rest ih =>
    intro st h
    obtain ⟨tc, flag⟩ := p
    cases flag with
    | none => exact ih _ rfl
    | some tag => exact ih _ h

/-- A trace with five auto-continue prompts, an intervening tool execution,
and five more prompts: ten prompts issued in one turn. -/
def manyPromptsTrace : List TurnEvent :=
  List.replicate 5 TurnEvent.autoContinue ++ [TurnEvent.execTool]
    ++ List.replicate 5 TurnEvent.autoContinue

/-- C10: executing any non-duplicate tool call of a chunk resets the
auto-continue counter to zero; consequently the counter always equals the
budget-capped length of the trailing run of auto-continue events since the
last execution — so `MAX_AUTO_SUMMARY_ATTEMPTS` bounds only consecutive
auto-continue prompts with no intervening tool execution, while a single
turn can issue more prompts in total, as the ten-prompt trace shows. -/
theorem c10_auto_summary_reset_and_budget :
    (∀ s : TurnCounters,
        (turnStep s TurnEvent.execTool).autoSummaryAttempts = 0)
    ∧ (∀ (l : List (ToolCall × Option Str)) (st : ChunkExecState),
        (l.any fun p => p.2.isNone) = true →
        (processChunkCalls l st).autoSummaryAttempts = 0)
    ∧ (∀ evs : List TurnEvent,
        (runTurnEvents evs).autoSummaryAttempts
          = min (trailingAutoContinues evs) maxAutoSummaryAttemptsBound)
    ∧ (∀ evs : List TurnEvent,
        (runTurnEvents evs).autoSummaryAttempts ≤ maxAutoSummaryAttemptsBound)
    ∧ (runTurnEvents manyPromptsTrace).promptsIssued = 10
    ∧ maxAutoSummaryAttemptsBound
        < (runTurnEvents manyPromptsTrace).promptsIssued := by
  have hmin : ∀ evs : List TurnEvent,
      (runTurnEvents evs).autoSummaryAttempts
        = min (trailingAutoContinues evs) maxAutoSummaryAttemptsBound := by
    intro evs
    have h := foldl_turnStep_attempts evs ⟨0, 0⟩ (by decide)
    rw [runTurnEvents, h, ite_self, Nat.zero_add]
  refine ⟨fun s => rfl, ?_, hmin, ?_, by decide, by decide⟩
  · intro l
    induction l with
    | nil => intro st h; exact absurd h (by decide)
    | cons p rest ih =>
      intro st h
      obtain ⟨tc, flag⟩ := p
      cases flag with
      | none => exact processChunkCalls_attempts_stay_zero rest _ rfl
      | some tag =>
        refine ih _ ?_
        simpa using h
  · intro evs
    rw [hmin evs]
    exact Nat.min_le_right _ _

/-- C10 witness: the reset applied to a concrete chunk containing one
flagged duplicate and one executed call. -/
theorem c10_auto_summary_reset_and_budget_witness :
    (processChunkCalls
        [(⟨("shell").data, Json.obj .nil⟩, some dupInChunkTag),
         (⟨("shell").data, Json.obj .nil⟩, none)]
        ⟨[], false, false, 4⟩).autoSummaryAttempts = 0
    ∧ (runTurnEvents manyPromptsTrace).autoSummaryAttempts
        = min (trailingAutoContinues manyPromptsTrace)
            maxAutoSummaryAttemptsBound := by
  constructor
  · exact c10_auto_summary_reset_and_budget.2.1 _ _ (by decide)
  · exact c10_auto_summary_reset_and_budget.2.2.1 manyPromptsTrace

/-- Consuming one character advances the line-scan state by one step. -/
theorem seenAfter_cons (seen : Bool) (c : Char) (l : Str) :
    seenAfter seen (c :: l) = seenAfter (seenState seen c) l := rfl

/-- Position-wise characterization of the sanitizer scanner: the output
character at `i` is the homoglyph exactly when the tool pattern starts at
`i` in the input and the line-scan state on arrival there is set. -/
theorem sanGo_getElem? :
    ∀ (s : Str) (seen : Bool) (i : Nat),
      (sanGo seen s)[i]?
        = if (toolPat.isPrefixOf (s.drop i) && seenAfter seen (s.take i)) = true
          then some lbraceHomoglyph else s[i]? := by
  intro s
  induction s with
  | nil =>
    intro seen i
    simp only [sanGo, List.drop_nil, List.take_nil]
    have hp : (toolPat.isPrefixOf ([] : Str) && seenAfter seen []) = false := by
      have h0 : toolPat.isPrefixOf ([] : Str) = false := by decide
      rw [h0, Bool.false_and]
    rw [hp, if_neg (by decide)]
  | cons c rest ih =>
    intro seen i
    by_cases hmatch : (seen && toolPat.isPrefixOf (c :: rest)) = true
    · rw [Bool.and_eq_true] at hmatch
      obtain ⟨hseen, hpref⟩ := hmatch
      have hsan : sanGo seen (c :: rest) = lbraceHomoglyph :: sanGo true rest := by
        rw [sanGo, if_pos (by rw [hseen, hpref]; rfl)]
      have hc : c = lbrace := by
        have : (lbrace == c && (toolPat.drop 1).isPrefixOf rest) = true := hpref
        rw [Bool.and_eq_true] at this
        exact (beq_iff_eq.mp this.1).symm
      cases i with
      | zero =>
        rw [hsan, List.getElem?_cons_zero, List.take_zero, List.drop_zero]
        rw [hpref, hseen]
        rfl
      | succ j =>
        rw [hsan, List.getElem?_cons_succ, ih true j, List.drop_succ_cons,
          List.take_succ_cons, seenAfter_cons, List.getElem?_cons_succ]
        have hstate : seenState seen c = true := by
          rw [hseen, hc]
          decide
        rw [hstate]
    · have hsan : sanGo seen (c :: rest)
          = c :: sanGo (seenState seen c) rest := by
        rw [sanGo, if_neg]
        exact fun h => hmatch h
      cases i with
      | zero =>
        rw [hsan, List.getElem?_cons_zero, List.take_zero, List.drop_zero]
        have hcond : (toolPat.isPrefixOf (c :: rest) && seenAfter seen [])
            = false := by
          show (toolPat.isPrefixOf (c :: rest) && seen) = false
          rw [Bool.and_comm]
          exact Bool.eq_false_iff.mpr hmatch
        rw [hcond, if_neg (by decide), List.getElem?_cons_zero]
      | succ j =>
        rw [hsan, List.getElem?_cons_succ, ih (seenState seen c) j,
          List.drop_succ_cons, List.take_succ_cons, seenAfter_cons,
          List.getElem?_cons_succ]

/-- Sanitization never changes the length of the text. -/
theorem sanGo_length : ∀ (s : Str) (seen : Bool),
    (sanGo seen s).length = s.length := by
  intro s
  induction s with
  | nil => intro seen; rfl
  | cons c rest ih =>
    intro seen
    rw [sanGo]
    split
    · rw [List.length_cons, List.length_cons, ih]
    · rw [List.length_cons, List.length_cons, ih]

/-- C3: sanitization rewrites exactly the opening brace of each tool-call
pattern that is preceded by non-whitespace on its own line, mapping it to
the homoglyph and leaving every other character in place; a pattern that is
the first non-whitespace content of its line — including after leading tabs
or spaces and after empty or whitespace-only lines — is untouched, and the
near-miss patterns (different key, capitalised key, single quotes) are left
completely unchanged. -/
theorem c3_sanitize_inline_patterns :
    ∀ (s : Str) (i : Nat),
      ((sanitizeInlineToolPatterns s).length = s.length)
      ∧ ((sanitizeInlineToolPatterns s)[i]?
          = if inlineAt s i = true then some lbraceHomoglyph else s[i]?)
      ∧ (seenAfter false (s.take i) = false →
          (sanitizeInlineToolPatterns s)[i]? = s[i]?)
      ∧ (sanitizeInlineToolPatterns (("\x7b\"tools\": \"value\"\x7d").data)
          = ("\x7b\"tools\": \"value\"\x7d").data)
      ∧ (sanitizeInlineToolPatterns (("\x7b\"Tool\": \"value\"\x7d").data)
          = ("\x7b\"Tool\": \"value\"\x7d").data)
      ∧ (sanitizeInlineToolPatterns (("\x7b'tool': 'value'\x7d").data)
          = ("\x7b'tool': 'value'\x7d").data)
      ∧ (sanitizeInlineToolPatterns
            (("\x7b\"tool\": \"shell\", \"args\": \x7b\x7d\x7d").data)
          = ("\x7b\"tool\": \"shell\", \"args\": \x7b\x7d\x7d").data)
      ∧ (sanitizeInlineToolPatterns (("\t\x7b\"tool\": \"shell\"\x7d").data)
          = ("\t\x7b\"tool\": \"shell\"\x7d").data)
      ∧ (sanitizeInlineToolPatterns (("   \n  \n\x7b\"tool\": \"shell\"\x7d").data)
          = ("   \n  \n\x7b\"tool\": \"shell\"\x7d").data)
      ∧ (sanitizeInlineToolPatterns (("Use `\x7b\"tool\": \"shell\"\x7d` ok").data)
          = ("Use `").data ++ [lbraceHomoglyph]
            ++ ("\"tool\": \"shell\"\x7d` ok").data) := by
  intro s i
  refine ⟨sanGo_length s false, sanGo_getElem? s false i, ?_, by decide,
    by decide, by decide, by decide, by decide, by decide, by decide⟩
  intro h
  rw [sanitizeInlineToolPatterns, sanGo_getElem? s false i, h, Bool.and_false,
    if_neg (by decide)]

/-- C3 witness: a standalone pattern position is untouched by the theorem's
whitespace-prefix clause, at a concrete input. -/
theorem c3_sanitize_inline_patterns_witness :
    (sanitizeInlineToolPatterns (("\t\x7b\"tool\": \"x\"\x7d").data))[1]?
      = (("\t\x7b\"tool\": \"x\"\x7d").data)[1]? := by
  exact (c3_sanitize_inline_patterns (("\t\x7b\"tool\": \"x\"\x7d").data) 1).2.2.1
    (by decide)

/-- De-duplication decorates the calls without reordering or dropping any. -/
theorem dedupGo_map_fst :
    ∀ (ts : List ToolCall) (cp : ToolCall → Option Str) (last : Option ToolCall),
      (dedupGo cp last ts).map Prod.fst = ts := by
  intro ts
  induction ts with
  | nil => intro cp last; cases last <;> rfl
  | cons t rest ih =>
    intro cp last
    cases last with
    | none => rw [dedupGo, List.map_cons, ih]
    | some l => rw [dedupGo, List.map_cons, ih]

/-- Whatever `last_tool_in_chunk` holds on entry, the pass emits the head
with some flag and continues with the head as the new previous call. -/
theorem dedupGo_cons (cp : ToolCall → Option Str) (last : Option ToolCall)
    (t : ToolCall) (rest : List ToolCall) :
    ∃ fl, dedupGo cp last (t :: rest) = (t, fl) :: dedupGo cp (some t) rest := by
  cases last with
  | none => exact ⟨cp t, rfl⟩
  | some l =>
    exact ⟨if areToolCallsDuplicate l t then some dupInChunkTag else none, rfl⟩

/-- The first call of a chunk is flagged by the previous-message check. -/
theorem dedup_first (ts : List ToolCall) (cp : ToolCall → Option Str)
    (x : ToolCall) (h : ts[0]? = some x) :
    (dedupToolCalls ts cp)[0]? = some (x, cp x) := by
  cases ts with
  | nil => exact absurd h (by simp)
  | cons t rest =>
    rw [List.getElem?_cons_zero] at h
    injection h with h
    subst h
    simp [dedupToolCalls, dedupGo]

/-- Every later call of a chunk is flagged DUP IN CHUNK exactly when it
duplicates the immediately previous call of the same chunk. -/
theorem dedupGo_getElem_succ :
    ∀ (ts : List ToolCall) (cp : ToolCall → Option Str)
      (last : Option ToolCall) (i : Nat) (x y : ToolCall),
      ts[i]? = some x → ts[i + 1]? = some y →
      (dedupGo cp last ts)[i + 1]?
        = some (y, if areToolCallsDuplicate x y then some dupInChunkTag
            else none) := by
  intro ts
  induction ts with
  | nil => intro cp last i x y h1 _; exact absurd h1 (by simp)
  | cons t rest ih =>
    intro cp last i x y h1 h2
    obtain ⟨fl, hfl⟩ := dedupGo_cons cp last t rest
    rw [hfl, List.getElem?_cons_succ]
    cases i with
    | zero =>
      rw [List.getElem?_cons_zero] at h1
      injection h1 with h1
      subst h1
      rw [List.getElem?_cons_succ] at h2
      cases rest with
      | nil => exact absurd h2 (by simp)
      | cons r rest' =>
        rw [List.getElem?_cons_zero] at h2
        injection h2 with h2
        subst h2
        simp [dedupGo]
    | succ j =>
      rw [List.getElem?_cons_succ] at h1 h2
      exact ih cp (some t) j x y h1 h2

/-- The tool-processing loop dispatches exactly the unflagged calls in
order, sets the execution flags iff at least one call was dispatched, and
leaves them alone otherwise. -/
theorem processChunkCalls_spec :
    ∀ (l : List (ToolCall × Option Str)) (st : ChunkExecState),
      ((processChunkCalls l st).dispatched
          = st.dispatched ++ (l.filter fun p => p.2.isNone).map Prod.fst)
      ∧ ((processChunkCalls l st).toolExecuted
          = (st.toolExecuted || l.any fun p => p.2.isNone))
      ∧ ((processChunkCalls l st).anyToolExecuted
          = (st.anyToolExecuted || l.any fun p => p.2.isNone)) := by
  intro l
  induction l with
  | nil => intro st; simp [processChunkCalls]
  | cons p rest ih =>
    intro st
    obtain ⟨tc, flag⟩ := p
    cases flag with
    | none =>
      have h := ih (⟨st.dispatched ++ [tc], true, true, 0⟩ : ChunkExecState)
      refine ⟨?_, ?_, ?_⟩
      · rw [processChunkCalls, h.1]
        simp [List.filter_cons]
      · rw [processChunkCalls, h.2.1]
        simp [List.any_cons]
      · rw [processChunkCalls, h.2.2]
        simp [List.any_cons]
    | some tag =>
      have h := ih st
      refine ⟨?_, ?_, ?_⟩
      · rw [processChunkCalls, h.1]
        simp [List.filter_cons]
      · rw [processChunkCalls, h.2.1]
        simp [List.any_cons]
      · rw [processChunkCalls, h.2.2]
        simp [List.any_cons]

/-- A successful position reported by `rfindSub` really carries the
pattern. -/
theorem rfindSub_isPrefixOf {s pat : Str} {i : Nat}
    (h : rfindSub s pat = some i) : pat.isPrefixOf (s.drop i) = true := by
  unfold rfindSub at h
  have h2 := List.find?_some h
  exact h2

/-- The balanced-JSON scan reports an index inside the scanned text. -/
theorem findEndGo_mem :
    ∀ (s : Str) (idx depth : Nat) (a b : Bool) (i : Nat),
      findEndGo s idx depth a b = some i → idx ≤ i ∧ i < idx + s.length := by
  intro s
  induction s with
  | nil => intro idx depth a b i h; exact absurd h (by rw [findEndGo]; simp)
  | cons c rest ih =>
    intro idx depth a b i h
    rw [List.length_cons]
    rw [findEndGo] at h
    split_ifs at h
    all_goals
      first
      | (obtain ⟨ha, hb⟩ := ih _ _ _ _ _ h; omega)
      | (injection h with h; omega)

/-- A flag from the previous-message check arises only from a trailing tool
call: the most recent assistant message splits into a prefix, a tool-call
JSON object starting with the scan pattern, and a whitespace-only tail, and
that object parses to a duplicate of the incoming call. -/
theorem checkDup_trailing_only :
    ∀ (history : List Message) (tc : ToolCall) (s' : Str),
      checkDuplicateInPreviousMessage history tc = some s' →
      s' = dupInMsgTag
      ∧ ∃ (msg : Message) (pre toolJson post : Str) (prev : ToolCall),
          findLastAssistant history = some msg
          ∧ msg.content = pre ++ (toolJson ++ post)
          ∧ (toolPat.isPrefixOf (toolJson ++ post) = true
              ∨ toolPatSpaced.isPrefixOf (toolJson ++ post) = true)
          ∧ trimStr post = []
          ∧ parseToolCallStr toolJson = some prev
          ∧ areToolCallsDuplicate prev tc = true := by
  intro history tc s' h
  unfold checkDuplicateInPreviousMessage at h
  split at h
  · exact absurd h (by simp)
  · next msg hla =>
    dsimp only at h
    split at h
    · exact absurd h (by simp)
    · next start hfind =>
      split at h
      · exact absurd h (by simp)
      · next endOff hend =>
        split at h
        · exact absurd h (by simp)
        · next htrim =>
          split at h
          · next prev hparse =>
            split at h
            · next hdup =>
              injection h with h
              subst h
              rw [Decidable.not_not] at htrim
              refine ⟨rfl, msg, msg.content.take start,
                (msg.content.drop start).take (endOff + 1),
                msg.content.drop (start + endOff + 1), prev, hla, ?_, ?_,
                htrim, hparse, hdup⟩
              · have h3 : ((msg.content.drop start).drop (endOff + 1))
                    = msg.content.drop (start + (endOff + 1)) :=
                  List.drop_drop _ _ _
                rw [← Nat.add_assoc] at h3
                rw [← h3, List.take_append_drop, List.take_append_drop]
              · have hsplit : (msg.content.drop start)
                    = (msg.content.drop start).take (endOff + 1)
                      ++ msg.content.drop (start + endOff + 1) := by
                  have h3 : ((msg.content.drop start).drop (endOff + 1))
                      = msg.content.drop (start + (endOff + 1)) :=
                    List.drop_drop _ _ _
                  rw [← Nat.add_assoc] at h3
                  rw [← h3, List.take_append_drop]
                rw [← hsplit]
                rcases (Option.orElse_eq_some' _ _ _).mp hfind with hp | ⟨_, hp⟩
                · exact Or.inl (rfindSub_isPrefixOf hp)
                · exact Or.inr (rfindSub_isPrefixOf hp)
            · exact absurd h (by simp)
          · exact absurd h (by simp)

/-- C1: in each chunk the first completed call is flagged by the
previous-message check and every later call is flagged DUP IN CHUNK exactly
when its tool name and args structurally equal those of the immediately
previous call of the chunk; the previous-message check flags DUP IN MSG
only when the most recent assistant message ends — up to whitespace — in a
tool-call JSON that parses to a structural duplicate of the incoming call;
and the processing loop dispatches exactly the unflagged calls, so flagged
duplicates are skipped and only dispatched calls set the execution flags. -/
theorem c1_duplicate_detection_and_skip :
    ∀ (ts : List ToolCall) (cp : ToolCall → Option Str)
      (history : List Message) (tc : ToolCall) (s' : Str)
      (l : List (ToolCall × Option Str)) (st : ChunkExecState),
      ((dedupToolCalls ts cp).map Prod.fst = ts)
      ∧ (∀ x, ts[0]? = some x → (dedupToolCalls ts cp)[0]? = some (x, cp x))
      ∧ (∀ i x y, ts[i]? = some x → ts[i + 1]? = some y →
          (dedupToolCalls ts cp)[i + 1]?
            = some (y, if areToolCallsDuplicate x y then some dupInChunkTag
                else none))
      ∧ (checkDuplicateInPreviousMessage history tc = some s' →
          s' = dupInMsgTag
          ∧ ∃ (msg : Message) (pre toolJson post : Str) (prev : ToolCall),
              findLastAssistant history = some msg
              ∧ msg.content = pre ++ (toolJson ++ post)
              ∧ (toolPat.isPrefixOf (toolJson ++ post) = true
                  ∨ toolPatSpaced.isPrefixOf (toolJson ++ post) = true)
              ∧ trimStr post = []
              ∧ parseToolCallStr toolJson = some prev
              ∧ areToolCallsDuplicate prev tc = true)
      ∧ ((processChunkCalls l st).dispatched
          = st.dispatched ++ (l.filter fun p => p.2.isNone).map Prod.fst)
      ∧ ((processChunkCalls l st).toolExecuted
          = (st.toolExecuted || l.any fun p => p.2.isNone))
      ∧ ((processChunkCalls l st).anyToolExecuted
          = (st.anyToolExecuted || l.any fun p => p.2.isNone)) := by
  intro ts cp history tc s' l st
  have hp := processChunkCalls_spec l st
  exact ⟨dedupGo_map_fst ts cp none,
    fun x hx => dedup_first ts cp x hx,
    fun i x y h1 h2 => dedupGo_getElem_succ ts cp none i x y h1 h2,
    fun h => checkDup_trailing_only history tc s' h,
    hp.1, hp.2.1, hp.2.2⟩

/-- A shell tool call used as a concrete duplicate-detection input. -/
def wShell : ToolCall :=
  ⟨("shell").data, Json.obj (.cons ("command").data (.str ("ls").data) .nil)⟩

/-- A different tool call used as a concrete non-duplicate input. -/
def wRead : ToolCall :=
  ⟨("read_file").data,
    Json.obj (.cons ("file_path").data (.str ("a.txt").data) .nil)⟩

/-- A history whose most recent assistant message ends in a tool call. -/
def wHist : List Message :=
  [Message.new MessageRole.system (("sys").data),
   Message.new MessageRole.assistant
     (("\x7b\"tool\": \"shell\", \"args\": \x7b\"command\": \"ls\"\x7d\x7d").data)]

/-- C1 witness: the duplicate-detection theorem applied to concrete chunks,
a concrete history, and a concrete processing state. -/
theorem c1_duplicate_detection_and_skip_witness :
    (dedupToolCalls [wShell, wShell] (fun _ => none))[1]?
        = some (wShell, some dupInChunkTag)
    ∧ (dedupToolCalls [wRead, wShell] (fun _ => none))[1]?
        = some (wShell, none)
    ∧ (∃ (msg : Message) (pre toolJson post : Str) (prev : ToolCall),
        findLastAssistant wHist = some msg
        ∧ msg.content = pre ++ (toolJson ++ post)
        ∧ (toolPat.isPrefixOf (toolJson ++ post) = true
            ∨ toolPatSpaced.isPrefixOf (toolJson ++ post) = true)
        ∧ trimStr post = []
        ∧ parseToolCallStr toolJson = some prev
        ∧ areToolCallsDuplicate prev wShell = true)
    ∧ (processChunkCalls [(wShell, some dupInMsgTag), (wRead, none)]
        (⟨[], false, false, 2⟩ : ChunkExecState)).dispatched = [wRead] := by
  refine ⟨?_, ?_, ?_, ?_⟩
  · exact ((c1_duplicate_detection_and_skip [wShell, wShell] (fun _ => none)
      [] wShell [] [] ⟨[], false, false, 0⟩).2.2.1 0 wShell wShell rfl
        rfl).trans (by decide)
  · exact ((c1_duplicate_detection_and_skip [wRead, wShell] (fun _ => none)
      [] wShell [] [] ⟨[], false, false, 0⟩).2.2.1 0 wRead wShell rfl
        rfl).trans (by decide)
  · exact ((c1_duplicate_detection_and_skip [] (fun _ => none) wHist wShell
      dupInMsgTag [] ⟨[], false, false, 0⟩).2.2.2.1 (by decide)).2
  · exact ((c1_duplicate_detection_and_skip [] (fun _ => none) [] wShell []
      [(wShell, some dupInMsgTag), (wRead, none)]
      ⟨[], false, false, 2⟩).2.2.2.2.1).trans (by decide)

end G3
